import Mathlib

/-!
# SessionExample.cpp — the call protocol of `main`

`src/session-cpp/SessionExample.cpp` is a single function `main` that drives an
object of class `Session` (declared in `IOTDBSession.h`, which is not part of
the sources).  The development below embeds `main` as a function over an
arbitrary implementation of the `Session` interface, with explicit state
passing and `Except` for a call that throws, and then studies it under

* a recording implementation, which yields the sequence of calls `main` issues;
* a scripted implementation, in which a chosen call fails;
* a model of the session contract written from the specification.
-/

namespace SessionExample

/-! ## Types declared in `IOTDBSession.h` -/

/-- Modelled from the spec: the enumeration `TSDataType` of `IOTDBSession.h`, which is
not among the sources.  The specification names `INT64` and says that further
value types exist without naming them; `other` stands for any of those. -/
inductive TSDataType where
  | INT64
  | other (code : Nat)
  deriving DecidableEq, Repr

/-- Modelled from the spec: the enumeration `TSEncoding` of `IOTDBSession.h`, which is
not among the sources.  The specification names `RLE` ("at least RLE"). -/
inductive TSEncoding where
  | RLE
  | other (code : Nat)
  deriving DecidableEq, Repr

/-- Modelled from the spec: the enumeration `CompressionType` of `IOTDBSession.h`,
which is not among the sources.  The specification names `SNAPPY`. -/
inductive CompressionType where
  | SNAPPY
  | other (code : Nat)
  deriving DecidableEq, Repr

/-- The interface of class `Session` as `main` uses it: the constructor and the six
member functions called in `SessionExample.cpp`, with the argument lists of the
call sites.  `σ` is the state of the session object (and of whatever it talks
to), `ε` the type of a thrown failure.  A member function either returns with a
new state or throws. -/
structure Session (σ ε : Type) where
  /-- Constructor `new Session(host, port, username, password)`. -/
  new : String → Int → String → String → σ
  /-- Member `session->open()`. -/
  «open» : σ → Except ε σ
  /-- Member `session->setStorageGroup(storageGroupId)`. -/
  setStorageGroup : String → σ → Except ε σ
  /-- Member `session->createTimeseries(path, dataType, encoding, compressor)`. -/
  createTimeseries : String → TSDataType → TSEncoding → CompressionType → σ → Except ε σ
  /-- Member `session->insert(deviceId, time, measurements, values)`. -/
  insert : String → Int → List String → List String → σ → Except ε σ
  /-- Member `session->deletedata(paths, endTime)`. -/
  deletedata : List String → Int → σ → Except ε σ
  /-- Member `session->close()`. -/
  close : σ → Except ε σ

/-- The member `std::vector::push_back`: append one element at the end. -/
def push_back {α : Type} (v : List α) (x : α) : List α := v ++ [x]

/-! ## `main` -/

/-- The loop of lines 17–25, entered with the loop variable equal to `time`:
`for (...; time < 100; time++) { values = {"1","2","3"}; session->insert(...); }`.
The loop variable is a C++ `int`; it never exceeds 100, so no wrap-around
arises and it is kept as an `Int`. -/
def insertLoop {σ ε : Type} (S : Session σ ε) (deviceId : String) (measurements : List String)
    (time : Int) (session : σ) : Except ε σ :=
  if time < 100 then do
    let values : List String := []
    let values := push_back values "1"
    let values := push_back values "2"
    let values := push_back values "3"
    let session ← S.insert deviceId time measurements values session
    insertLoop S deviceId measurements (time + 1) session
  else
    pure session
termination_by (100 - time).toNat
decreasing_by omega

/-- Lines 6–30 of `main`: everything up to and including `session->deletedata(del, 99)`.
The result is the state of the session right after that call. -/
def mainThroughDelete {σ ε : Type} (S : Session σ ε) : Except ε σ := do
  let session := S.new "127.0.0.1" 6667 "root" "root"
  let session ← S.open session
  let session ← S.setStorageGroup "root.sg1" session
  let session ← S.createTimeseries "root.sg1.d1.s1" TSDataType.INT64 TSEncoding.RLE
    CompressionType.SNAPPY session
  let session ← S.createTimeseries "root.sg1.d1.s2" TSDataType.INT64 TSEncoding.RLE
    CompressionType.SNAPPY session
  let session ← S.createTimeseries "root.sg1.d1.s3" TSDataType.INT64 TSEncoding.RLE
    CompressionType.SNAPPY session
  let deviceId := "root.sg1.d1"
  let measurements : List String := []
  let measurements := push_back measurements "s1"
  let measurements := push_back measurements "s2"
  let measurements := push_back measurements "s3"
  let session ← insertLoop S deviceId measurements 0 session
  let del : List String := []
  let del := push_back del "root.sg1.d1.s1"
  let del := push_back del "root.sg1.d1.s2"
  let del := push_back del "root.sg1.d1.s3"
  S.deletedata del 99 session

/-- The function `main` (lines 4–32): lines 6–30 followed by `session->close()`. -/
def main {σ ε : Type} (S : Session σ ε) : Except ε σ := do
  let session ← mainThroughDelete S
  S.close session

/-! ## Observing the calls of `main` -/

/-- One call of a member function of `Session`, with its arguments. -/
inductive Call where
  | «open»
  | setStorageGroup (storageGroupId : String)
  | createTimeseries (path : String) (dataType : TSDataType) (encoding : TSEncoding)
      (compressor : CompressionType)
  | insert (deviceId : String) (time : Int) (measurements : List String) (values : List String)
  | deletedata (paths : List String) (endTime : Int)
  | close
  deriving DecidableEq, Repr

/-- A schema, write or delete call: any call other than `open()` and `close()`. -/
def Call.isOperation : Call → Bool
  | .open => false
  | .close => false
  | _ => true

/-- Whether the call is an `insert`. -/
def Call.isInsert : Call → Bool
  | .insert _ _ _ _ => true
  | _ => false

/-- The path of a `createTimeseries` call. -/
def Call.createdPath : Call → Option String
  | .createTimeseries path _ _ _ => some path
  | _ => none

/-- The timestamp of an `insert` call. -/
def Call.insertTime : Call → Option Int
  | .insert _ time _ _ => some time
  | _ => none

/-- Perform one call on a session. -/
def Session.perform {σ ε : Type} (S : Session σ ε) : Call → σ → Except ε σ
  | .open, s => S.open s
  | .setStorageGroup sg, s => S.setStorageGroup sg s
  | .createTimeseries p d e c, s => S.createTimeseries p d e c s
  | .insert d t ms vs, s => S.insert d t ms vs s
  | .deletedata ps t, s => S.deletedata ps t s
  | .close, s => S.close s

/-- Perform a list of calls from left to right, stopping at the first one that throws. -/
def Session.performAll {σ ε : Type} (S : Session σ ε) : List Call → σ → Except ε σ
  | [], s => pure s
  | c :: cs, s => do
    let s ← S.perform c s
    S.performAll cs s

/-- The calls a run has issued, whether it ended normally or with a throw. -/
def issued (r : Except (List Call) (List Call)) : List Call :=
  match r with
  | .ok trace => trace
  | .error trace => trace

/-- A scripted call: it is appended to the trace of the calls issued so far, and it
throws when `fails` holds of its position in that trace (counted from 0).  The
failure carries the trace, the throwing call included. -/
def scriptedCall (fails : Nat → Bool) (c : Call) (trace : List Call) :
    Except (List Call) (List Call) :=
  if fails trace.length then .error (trace ++ [c]) else .ok (trace ++ [c])

/-- An implementation of `Session` that records the calls made on it and in which the
calls at the positions selected by `fails` throw. -/
def scripted (fails : Nat → Bool) : Session (List Call) (List Call) where
  new := fun _ _ _ _ => []
  «open» := scriptedCall fails .open
  setStorageGroup := fun sg => scriptedCall fails (.setStorageGroup sg)
  createTimeseries := fun p d e c => scriptedCall fails (.createTimeseries p d e c)
  insert := fun d t ms vs => scriptedCall fails (.insert d t ms vs)
  deletedata := fun ps t => scriptedCall fails (.deletedata ps t)
  close := scriptedCall fails .close

/-- The recording implementation: every call succeeds. -/
def recording : Session (List Call) (List Call) := scripted (fun _ => false)

/-- The `insert` call of the loop iteration with loop variable `time`, for a given
device and measurement list. -/
def insertCallOf (deviceId : String) (measurements : List String) (time : Int) : Call :=
  .insert deviceId time measurements ["1", "2", "3"]

/-- The loop variable's values over `n` iterations starting from `time`. -/
def loopTimes (time : Int) : Nat → List Int
  | 0 => []
  | n + 1 => time :: loopTimes (time + 1) n

/-- The `insert` call with timestamp `k` on device `root.sg1.d1`. -/
def insertCall (k : Int) : Call :=
  insertCallOf "root.sg1.d1" ["s1", "s2", "s3"] k

/-- The three timeseries paths of the example. -/
def seriesPaths : List String := ["root.sg1.d1.s1", "root.sg1.d1.s2", "root.sg1.d1.s3"]

/-- The calls before the loop. -/
def setupCalls : List Call :=
  [ .open,
    .setStorageGroup "root.sg1",
    .createTimeseries "root.sg1.d1.s1" .INT64 .RLE .SNAPPY,
    .createTimeseries "root.sg1.d1.s2" .INT64 .RLE .SNAPPY,
    .createTimeseries "root.sg1.d1.s3" .INT64 .RLE .SNAPPY ]

/-- The calls of the loop. -/
def loopCalls : List Call := (loopTimes 0 100).map insertCall

/-- The call sequence against which the recorded run of `main` is compared. -/
def mainCalls : List Call :=
  setupCalls ++ loopCalls ++ [.deletedata seriesPaths 99, .close]

/-! ## The session contract of the specification

Class `Session` is implemented in the client library, outside the sources.  The
definitions of this section follow the specification's description of it
(sections 3, 4.1, 7 and 8). -/

/-- Modelled from the spec: the error taxonomy of section 7; class `Session` and its
exceptions are not among the sources. -/
inductive SessionError where
  | ConnectionError
  | SchemaError
  | WriteError
  | StateError
  deriving DecidableEq, Repr

/-- Modelled from the spec: what the specification leaves to the server, which is not
among the sources: which endpoints are reachable, which credentials
authenticate, which paths are malformed, and which value strings have a value
type other than `INT64`. -/
structure Server where
  reachable : String → Int → Bool
  authenticates : String → String → Bool
  wellFormed : String → Bool
  accepts : Nat → String → Bool

/-- Modelled from the spec: a stored value.  The specification's scenario expects the
string `"1"` written to an `INT64` series to be persisted as the value 1, so a
value of an `INT64` series is an integer; a value of another type is kept as
written. -/
inductive Value where
  | int64 (v : Int)
  | raw (code : Nat) (text : String)
  deriving DecidableEq, Repr

/-- Modelled from the spec: a declared timeseries (section 3): a dotted path with a
value type, an encoding and a compression scheme. -/
structure Timeseries where
  path : String
  dataType : TSDataType
  encoding : TSEncoding
  compressor : CompressionType
  deriving DecidableEq, Repr

/-- Modelled from the spec: one data point of a timeseries. -/
structure Point where
  path : String
  time : Int
  value : Value
  deriving DecidableEq, Repr

/-- Modelled from the spec: the server-side state: the declared storage groups, the
declared timeseries and the persisted points. -/
structure Database where
  storageGroups : List String
  timeseries : List Timeseries
  points : List Point
  deriving DecidableEq, Repr

/-- The database of a fresh server. -/
def Database.empty : Database := ⟨[], [], []⟩

/-- Modelled from the spec: the lifecycle of a session (section 3): constructed,
opened, closed. -/
inductive Phase where
  | created
  | opened
  | closed
  deriving DecidableEq, Repr

/-- Modelled from the spec: a session object: its endpoint (immutable after
construction), its lifecycle phase and the database of the server it talks to. -/
structure SessionState where
  host : String
  port : Int
  username : String
  password : String
  phase : Phase
  db : Database
  deriving DecidableEq, Repr

/-- The value of a decimal digit. -/
def digitValue (c : Char) : Option Nat :=
  if 48 ≤ c.toNat ∧ c.toNat ≤ 57 then some (c.toNat - 48) else none

/-- The number written by a list of decimal digits, continuing from `acc`. -/
def parseDigits : List Char → Nat → Option Nat
  | [], acc => some acc
  | c :: cs, acc =>
    match digitValue c with
    | none => none
    | some d => parseDigits cs (10 * acc + d)

/-- The integer that a string denotes as a decimal literal of a signed 64-bit integer:
decimal digits with an optional leading minus sign, the number lying between
`-2^63` and `2^63 - 1`; `none` for any other string. -/
def parseInt64 (s : String) : Option Int :=
  match s.data with
  | [] => none
  | c :: cs =>
    if c.toNat = 45 then
      match cs with
      | [] => none
      | _ :: _ =>
        match parseDigits cs 0 with
        | none => none
        | some n => if n ≤ 2 ^ 63 then some (-(n : Int)) else none
    else
      match parseDigits (c :: cs) 0 with
      | none => none
      | some n => if n < 2 ^ 63 then some (n : Int) else none

/-- Modelled from the spec: the value a string denotes at a declared value type, if it
has that type.  The coercion of a value string is performed, if at all, inside
the client library or the server, which are not among the sources; the
specification's scenario expects `"1"` written to an `INT64` series to be stored
as 1, so a string has type `INT64` when it is the decimal literal of a signed
64-bit integer. -/
def Server.coerce (server : Server) : TSDataType → String → Option Value
  | .INT64, text => (parseInt64 text).map Value.int64
  | .other code, text => if server.accepts code text then some (.raw code text) else none

/-- Modelled from the spec: `path` lies under the storage group `sg`: `sg` followed by a
dot is a proper prefix of `path`. -/
def liesUnder (path sg : String) : Bool :=
  (sg ++ ".").data.isPrefixOf path.data && decide ((sg ++ ".").data.length < path.data.length)

/-- The declared timeseries with the given path, if any. -/
def Database.series (db : Database) (path : String) : Option Timeseries :=
  db.timeseries.find? (fun ts => ts.path == path)

/-- Modelled from the spec: the points of one row: position `i` of `values` is the value
of position `i` of `measurements`; the timeseries of a measurement is
`deviceId.measurement`.  `WriteError` on an arity mismatch, an undeclared
timeseries, or a value that does not have the declared type. -/
def rowPoints (server : Server) (db : Database) (deviceId : String) (time : Int) :
    List String → List String → Except SessionError (List Point)
  | [], [] => .ok []
  | m :: ms, v :: vs =>
    match db.series (deviceId ++ "." ++ m) with
    | none => .error .WriteError
    | some ts =>
      match server.coerce ts.dataType v with
      | none => .error .WriteError
      | some x =>
        match rowPoints server db deviceId time ms vs with
        | .error e => .error e
        | .ok rest => .ok (⟨ts.path, time, x⟩ :: rest)
  | _, _ => .error .WriteError

/-- Modelled from the spec: an operation is valid only in an open session; outside one
it fails with `StateError`. -/
def whenOpen (st : SessionState) (k : Except SessionError SessionState) :
    Except SessionError SessionState :=
  if st.phase = .opened then k else .error .StateError

/-- Modelled from the spec: `open()` establishes the connection; `ConnectionError` if the
endpoint is unreachable or authentication fails.  Only a session that has been
constructed and not yet opened can be opened (the specification requires an
explicit open/close lifecycle with no reconnection). -/
def specOpen (server : Server) (st : SessionState) : Except SessionError SessionState :=
  if st.phase = .created then
    if server.reachable st.host st.port && server.authenticates st.username st.password then
      .ok { st with phase := .opened }
    else .error .ConnectionError
  else .error .StateError

/-- Modelled from the spec: `setStorageGroup(path)` declares a namespace; declaring it
again changes nothing; `SchemaError` if the path is malformed. -/
def specSetStorageGroup (server : Server) (sg : String) (st : SessionState) :
    Except SessionError SessionState :=
  whenOpen st <|
    if server.wellFormed sg then
      if sg ∈ st.db.storageGroups then .ok st
      else .ok { st with db := { st.db with storageGroups := st.db.storageGroups ++ [sg] } }
    else .error .SchemaError

/-- Modelled from the spec: `createTimeseries` declares a series under an existing
storage group; `SchemaError` if no declared storage group contains the path or
if the series already exists with a conflicting definition. -/
def specCreateTimeseries (path : String) (dataType : TSDataType) (encoding : TSEncoding)
    (compressor : CompressionType) (st : SessionState) : Except SessionError SessionState :=
  whenOpen st <|
    if st.db.storageGroups.any (liesUnder path) then
      match st.db.series path with
      | some ts =>
        if ts = ⟨path, dataType, encoding, compressor⟩ then .ok st else .error .SchemaError
      | none =>
        .ok { st with db := { st.db with
          timeseries := st.db.timeseries ++ [⟨path, dataType, encoding, compressor⟩] } }
    else .error .SchemaError

/-- Modelled from the spec: `insert` appends one row: one point for each measurement. -/
def specInsert (server : Server) (deviceId : String) (time : Int) (measurements : List String)
    (values : List String) (st : SessionState) : Except SessionError SessionState :=
  whenOpen st <|
    match rowPoints server st.db deviceId time measurements values with
    | .error e => .error e
    | .ok row => .ok { st with db := { st.db with points := st.db.points ++ row } }

/-- Modelled from the spec: `deletedata(paths, endTime)` removes exactly the points with
timestamp at most `endTime` on each of the given paths; `WriteError` if a path
does not exist. -/
def specDeletedata (paths : List String) (endTime : Int) (st : SessionState) :
    Except SessionError SessionState :=
  whenOpen st <|
    if paths.all (fun p => (st.db.series p).isSome) then
      .ok { st with db := { st.db with
        points := st.db.points.filter (fun pt => !(decide (pt.path ∈ paths) && decide (pt.time ≤ endTime))) } }
    else .error .WriteError

/-- Modelled from the spec: `close()` releases the connection; later operations fail with
`StateError`. -/
def specClose (st : SessionState) : Except SessionError SessionState :=
  whenOpen st <| .ok { st with phase := .closed }

/-- Modelled from the spec: class `Session` of the client library, which is not among
the sources, as sections 3, 4.1, 7 and 8 of the specification describe it,
talking to `server` whose database is `db` when the session is constructed. -/
def specSession (server : Server) (db : Database) : Session SessionState SessionError where
  new := fun host port username password => ⟨host, port, username, password, .created, db⟩
  «open» := specOpen server
  setStorageGroup := specSetStorageGroup server
  createTimeseries := specCreateTimeseries
  insert := specInsert server
  deletedata := specDeletedata
  close := specClose

/-- A server that reaches every endpoint and accepts everything. -/
def permissiveServer : Server := ⟨fun _ _ => true, fun _ _ => true, fun _ => true, fun _ _ => true⟩

/-- The scenario of section 8 of the specification. -/
def scenarioCalls : List Call :=
  [ .open,
    .setStorageGroup "root.sg1",
    .createTimeseries "root.sg1.d1.s1" .INT64 .RLE .SNAPPY,
    .insert "root.sg1.d1" 0 ["s1"] ["1"],
    .close ]

/-- The points that the loop iterations with the given values of the loop variable
write under the session contract: one point for each of the three series. -/
def rowsOf (times : List Int) : List Point :=
  times.flatMap (fun t => [⟨"root.sg1.d1.s1", t, .int64 1⟩, ⟨"root.sg1.d1.s2", t, .int64 2⟩,
    ⟨"root.sg1.d1.s3", t, .int64 3⟩])

/-- The three timeseries of the example as the session contract records them. -/
def declaredSeries : List Timeseries :=
  [⟨"root.sg1.d1.s1", .INT64, .RLE, .SNAPPY⟩, ⟨"root.sg1.d1.s2", .INT64, .RLE, .SNAPPY⟩,
    ⟨"root.sg1.d1.s3", .INT64, .RLE, .SNAPPY⟩]

/-! ## The recorded run -/

theorem push_back_nil3 {α : Type} (a b c : α) :
    push_back (push_back (push_back ([] : List α) a) b) c = [a, b, c] := rfl

theorem performAll_append {σ ε : Type} (S : Session σ ε) (xs ys : List Call) (s : σ) :
    S.performAll (xs ++ ys) s = (S.performAll xs s >>= S.performAll ys) := by
  induction xs generalizing s with
  | nil => rfl
  | cons c cs ih =>
    simp only [List.cons_append, Session.performAll]
    cases h : S.perform c s with
    | error e => rfl
    | ok s1 => exact ih s1

/-- The loop performs the `insert` calls for the remaining values of the loop variable. -/
theorem insertLoop_eq_performAll {σ ε : Type} (S : Session σ ε) (deviceId : String)
    (measurements : List String) (n : Nat) :
    ∀ (time : Int) (s : σ), time + n = 100 →
      insertLoop S deviceId measurements time s =
        S.performAll ((loopTimes time n).map (insertCallOf deviceId measurements)) s := by
  induction n with
  | zero =>
    intro time s h
    rw [insertLoop]
    have : ¬ time < 100 := by omega
    simp [this, loopTimes, Session.performAll]
  | succ n ih =>
    intro time s h
    rw [insertLoop]
    have hlt : time < 100 := by omega
    simp only [hlt, if_true, push_back_nil3, loopTimes, List.map_cons, Session.performAll,
      insertCallOf, Session.perform]
    cases h1 : S.insert deviceId time measurements ["1", "2", "3"] s with
    | error e => rfl
    | ok s1 =>
      have := ih (time + 1) s1 (by push_cast at h ⊢; omega)
      simpa [insertCallOf] using this

/-- Under any implementation of `Session`, lines 6–30 perform the calls of `mainCalls`
other than the final `close()`, in order, on the freshly constructed session. -/
theorem mainThroughDelete_eq_performAll {σ ε : Type} (S : Session σ ε) :
    mainThroughDelete S =
      S.performAll (setupCalls ++ loopCalls ++ [.deletedata seriesPaths 99])
        (S.new "127.0.0.1" 6667 "root" "root") := by
  rw [performAll_append, performAll_append]
  generalize hL : S.performAll loopCalls = L
  simp only [mainThroughDelete, push_back_nil3, setupCalls, Session.performAll, Session.perform,
    seriesPaths, bind_assoc, bind_pure, pure_bind]
  subst hL
  congr 1; funext s1
  congr 1; funext s2
  congr 1; funext s3
  congr 1; funext s4
  congr 1; funext s5
  congr 1
  exact insertLoop_eq_performAll S _ _ 100 0 s5 (by norm_num)

/-- Under any implementation of `Session`, `main` performs the calls of `mainCalls`, in
order, on the freshly constructed session, up to the first call that throws. -/
theorem main_eq_performAll {σ ε : Type} (S : Session σ ε) :
    main S = S.performAll mainCalls (S.new "127.0.0.1" 6667 "root" "root") := by
  have h : mainCalls = (setupCalls ++ loopCalls ++ [.deletedata seriesPaths 99]) ++ [.close] :=
    (List.append_assoc _ [_] [_]).symm
  rw [main, mainThroughDelete_eq_performAll, h, performAll_append _ _ [Call.close]]
  congr 1; funext s
  show S.close s = (S.perform .close s >>= pure)
  rw [bind_pure]; rfl

/-! ### Runs of the scripted session -/

theorem perform_scripted (fails : Nat → Bool) (c : Call) (trace : List Call) :
    (scripted fails).perform c trace = scriptedCall fails c trace := by
  cases c <;> rfl

/-- While no selected position is reached, the scripted session appends the calls. -/
theorem performAll_scripted_ok (fails : Nat → Bool) (cs : List Call) :
    ∀ trace : List Call, (∀ i, i < cs.length → fails (trace.length + i) = false) →
      (scripted fails).performAll cs trace = .ok (trace ++ cs) := by
  induction cs with
  | nil => intro trace _; simp [Session.performAll, pure, Except.pure]
  | cons c cs ih =>
    intro trace h
    have h0 : fails trace.length = false := by simpa using h 0 (by simp)
    have ht : (scripted fails).performAll cs (trace ++ [c]) = .ok ((trace ++ [c]) ++ cs) := by
      apply ih
      intro i hi
      have := h (i + 1) (by simpa using hi)
      simpa [Nat.add_assoc, Nat.add_comm 1 i] using this
    simp only [Session.performAll, perform_scripted, scriptedCall, h0]
    simpa [bind, Except.bind] using ht

/-- The scripted session stops at the first selected position: the trace then holds the
calls up to and including the one that throws, and nothing after it. -/
theorem performAll_scripted_error (fails : Nat → Bool) (cs : List Call) :
    ∀ (trace : List Call) (k : Nat), k < cs.length → fails (trace.length + k) = true →
      (∀ i, i < k → fails (trace.length + i) = false) →
      (scripted fails).performAll cs trace = .error (trace ++ cs.take (k + 1)) := by
  induction cs with
  | nil => intro trace k hk; simp at hk
  | cons c cs ih =>
    intro trace k hk hf hlt
    cases k with
    | zero =>
      have h0 : fails trace.length = true := by simpa using hf
      simp [Session.performAll, perform_scripted, scriptedCall, h0, bind, Except.bind]
    | succ k =>
      have h0 : fails trace.length = false := by simpa using hlt 0 (by omega)
      have ht : (scripted fails).performAll cs (trace ++ [c]) =
          .error ((trace ++ [c]) ++ cs.take (k + 1)) := by
        apply ih _ k (by simpa using hk)
        · simpa [Nat.add_assoc, Nat.add_comm 1 k] using hf
        · intro i hi
          have := hlt (i + 1) (by omega)
          simpa [Nat.add_assoc, Nat.add_comm 1 i] using this
      simp only [Session.performAll, perform_scripted, scriptedCall, h0]
      simpa [bind, Except.bind] using ht

/-- When every call succeeds, the calls `main` issues are those of `mainCalls`. -/
theorem main_recording : main recording = .ok mainCalls := by
  rw [main_eq_performAll]
  exact performAll_scripted_ok _ mainCalls [] (fun _ _ => rfl)

/-! ### The loop variable -/

theorem loopTimes_eq_map (n : Nat) : ∀ time : Int,
    loopTimes time n = (List.range n).map (fun i : Nat => time + (i : Int)) := by
  induction n with
  | zero => intro time; rfl
  | succ n ih =>
    intro time
    rw [loopTimes, ih, List.range_succ_eq_map, List.map_cons, List.map_map]
    congr 1
    · simp
    · apply List.map_congr_left
      intro i _
      simp only [Function.comp_apply]
      push_cast
      ring

theorem loopTimes_length (time : Int) (n : Nat) : (loopTimes time n).length = n := by
  simp [loopTimes_eq_map]

theorem mem_loopTimes {time : Int} {n : Nat} {x : Int} :
    x ∈ loopTimes time n ↔ time ≤ x ∧ x < time + n := by
  rw [loopTimes_eq_map]
  simp only [List.mem_map, List.mem_range]
  constructor
  · rintro ⟨i, hi, rfl⟩; omega
  · rintro ⟨h1, h2⟩
    exact ⟨(x - time).toNat, by omega, by omega⟩

theorem loopCalls_length : loopCalls.length = 100 := by
  simp [loopCalls, loopTimes_length]

theorem mem_loopCalls {c : Call} : c ∈ loopCalls ↔ ∃ k : Int, 0 ≤ k ∧ k < 100 ∧ c = insertCall k := by
  simp only [loopCalls, List.mem_map, mem_loopTimes]
  constructor
  · rintro ⟨k, ⟨h1, h2⟩, rfl⟩; exact ⟨k, h1, by simpa using h2, rfl⟩
  · rintro ⟨k, h1, h2, rfl⟩; exact ⟨k, ⟨h1, by simpa using h2⟩, rfl⟩

theorem mainCalls_length : mainCalls.length = 107 := by
  simp [mainCalls, setupCalls, loopCalls_length]

/-! ### The shape of the call sequence -/

theorem issued_main_recording : issued (main recording) = mainCalls := by
  rw [main_recording]; rfl

theorem mainCalls_bracket :
    mainCalls = Call.open ::
      ((setupCalls.tail ++ loopCalls ++ [.deletedata seriesPaths 99]) ++ [Call.close]) := by
  simp only [mainCalls, setupCalls, List.tail_cons, List.cons_append, List.append_assoc,
    List.nil_append]

theorem insertCall_isOperation (k : Int) : (insertCall k).isOperation = true := rfl

theorem middle_isOperation :
    ∀ c ∈ setupCalls.tail ++ loopCalls ++ [Call.deletedata seriesPaths 99],
      c.isOperation = true := by
  intro c hc
  simp only [List.mem_append, List.mem_singleton] at hc
  rcases hc with (hc | hc) | hc
  · simp [setupCalls] at hc
    rcases hc with rfl | rfl | rfl | rfl <;> rfl
  · obtain ⟨k, _, _, rfl⟩ := mem_loopCalls.mp hc
    rfl
  · subst hc; rfl

/-- A call sequence of the shape `open, operations, close` has `open()` first and once,
`close()` last and once, and every operation strictly in between. -/
theorem bracket_shape (mid : List Call) (h : ∀ c ∈ mid, c.isOperation = true) :
    (Call.open :: (mid ++ [Call.close])).head? = some Call.open ∧
    (Call.open :: (mid ++ [Call.close])).getLast? = some Call.close ∧
    (Call.open :: (mid ++ [Call.close])).count Call.open = 1 ∧
    (Call.open :: (mid ++ [Call.close])).count Call.close = 1 ∧
    ∀ (i : Nat) (c : Call), (Call.open :: (mid ++ [Call.close]))[i]? = some c →
      c.isOperation = true → 0 < i ∧ i + 1 < (Call.open :: (mid ++ [Call.close])).length := by
  have hopen : mid.count Call.open = 0 := by
    rw [List.count_eq_zero]
    intro hm
    have := h _ hm
    simp [Call.isOperation] at this
  have hclose : mid.count Call.close = 0 := by
    rw [List.count_eq_zero]
    intro hm
    have := h _ hm
    simp [Call.isOperation] at this
  refine ⟨rfl, ?_, ?_, ?_, ?_⟩
  · rw [← List.cons_append, List.getLast?_append]
    simp
  · simp [List.count_cons, List.count_append, hopen]
  · simp [List.count_cons, List.count_append, hclose]
  · intro i c hi hc
    cases i with
    | zero =>
      simp at hi
      subst hi
      simp [Call.isOperation] at hc
    | succ i =>
      refine ⟨Nat.succ_pos _, ?_⟩
      simp only [List.getElem?_cons_succ] at hi
      by_cases hlt : i < mid.length
      · simp; omega
      · rw [List.getElem?_append_right (by omega)] at hi
        cases hj : i - mid.length with
        | zero =>
          rw [hj] at hi
          simp at hi
          subst hi
          simp [Call.isOperation] at hc
        | succ j =>
          rw [hj] at hi
          simp at hi

/-- C1: in the run of `main` in which every call succeeds, the sequence of member
function calls made on the session object (the constructor of line 6 creates
the object and is not one of them) has `open()` first and exactly once,
`close()` last and exactly once, and every `setStorageGroup`,
`createTimeseries`, `insert` and `deletedata` call strictly between the two: no
operation is issued before `open()` or after `close()`. -/
theorem main_open_first_close_last :
    main recording = .ok (issued (main recording)) ∧
    (issued (main recording)).head? = some Call.open ∧
    (issued (main recording)).getLast? = some Call.close ∧
    (issued (main recording)).count Call.open = 1 ∧
    (issued (main recording)).count Call.close = 1 ∧
    (∀ (i : Nat) (c : Call), (issued (main recording))[i]? = some c → c.isOperation = true →
      0 < i ∧ i + 1 < (issued (main recording)).length) := by
  rw [issued_main_recording, main_recording, mainCalls_bracket]
  obtain ⟨h1, h2, h3, h4, h5⟩ := bracket_shape _ middle_isOperation
  exact ⟨rfl, h1, h2, h3, h4, h5⟩

/-! ### Positions in the call sequence -/

theorem loopCalls_getElem? (j : Nat) :
    loopCalls[j]? = if j < 100 then some (insertCall (j : Int)) else none := by
  simp only [loopCalls, loopTimes_eq_map, List.map_map, List.getElem?_map, List.getElem?_range]
  by_cases h : j < 100
  · simp [h, List.getElem?_range]
  · simp only [h, if_false]
    simp
    omega

theorem mem_mainCalls {c : Call} :
    c ∈ mainCalls ↔
      c ∈ setupCalls ∨ c ∈ loopCalls ∨ c = .deletedata seriesPaths 99 ∨ c = .close := by
  simp only [mainCalls, List.mem_append, List.mem_cons, List.mem_singleton, List.not_mem_nil,
    or_false, or_assoc]

/-- The call at each position of `mainCalls`: five set-up calls, the hundred `insert`
calls, `deletedata`, `close`. -/
theorem mainCalls_getElem? (i : Nat) :
    mainCalls[i]? =
      if i < 5 then setupCalls[i]?
      else if i < 105 then some (insertCall ((i - 5 : Nat) : Int))
      else if i = 105 then some (.deletedata seriesPaths 99)
      else if i = 106 then some .close
      else none := by
  have h5 : setupCalls.length = 5 := rfl
  rw [mainCalls, List.append_assoc]
  by_cases h1 : i < 5
  · rw [List.getElem?_append_left (by omega)]; simp [h1]
  · rw [List.getElem?_append_right (by omega), h5]
    simp only [h1, if_false]
    by_cases h2 : i < 105
    · rw [List.getElem?_append_left (by rw [loopCalls_length]; omega), loopCalls_getElem?]
      have : i - 5 < 100 := by omega
      simp [h2, this]
    · rw [List.getElem?_append_right (by rw [loopCalls_length]; omega), loopCalls_length]
      simp only [h2, if_false]
      by_cases h3 : i = 105
      · subst h3; rfl
      · by_cases h4 : i = 106
        · subst h4; rfl
        · simp only [h3, h4, if_false]
          have : 2 ≤ i - 5 - 100 := by omega
          rw [List.getElem?_eq_none]
          simpa using this

theorem insertCall_eq (k : Int) :
    insertCall k = .insert "root.sg1.d1" k ["s1", "s2", "s3"] ["1", "2", "3"] := rfl

/-- The `insert` calls of `mainCalls` sit at positions 5 to 104; the one at position
`i` is the loop iteration `i - 5`. -/
theorem mainCalls_insert_at {i : Nat} {d : String} {t : Int} {ms vs : List String}
    (h : mainCalls[i]? = some (.insert d t ms vs)) :
    5 ≤ i ∧ i < 105 ∧ d = "root.sg1.d1" ∧ t = ((i - 5 : Nat) : Int) ∧
      ms = ["s1", "s2", "s3"] ∧ vs = ["1", "2", "3"] := by
  rw [mainCalls_getElem?] at h
  by_cases h1 : i < 5
  · exfalso
    simp only [h1, if_true] at h
    interval_cases i <;> simp [setupCalls] at h
  · simp only [h1, if_false] at h
    by_cases h2 : i < 105
    · simp only [h2, if_true, insertCall_eq, Option.some.injEq, Call.insert.injEq] at h
      obtain ⟨rfl, rfl, rfl, rfl⟩ := h
      exact ⟨by omega, h2, rfl, rfl, rfl, rfl⟩
    · exfalso
      simp only [h2, if_false] at h
      split_ifs at h <;> simp at h

/-- The `createTimeseries` calls of `mainCalls` sit at positions 2, 3 and 4. -/
theorem mainCalls_create_at {i : Nat} {p : String} {dt : TSDataType} {enc : TSEncoding}
    {comp : CompressionType} (h : mainCalls[i]? = some (.createTimeseries p dt enc comp)) :
    2 ≤ i ∧ i < 5 ∧ seriesPaths[i - 2]? = some p ∧ dt = .INT64 ∧ enc = .RLE ∧ comp = .SNAPPY := by
  rw [mainCalls_getElem?] at h
  by_cases h1 : i < 5
  · simp only [h1, if_true] at h
    interval_cases i <;> simp [setupCalls] at h <;>
      (obtain ⟨rfl, rfl, rfl, rfl⟩ := h; simp [seriesPaths])
  · exfalso
    simp only [h1, if_false, insertCall_eq] at h
    split_ifs at h <;> simp at h

/-! ### The arguments of the calls -/

/-- C2: every `insert` call that `main` issues has a measurement list and a value list
of the same length, 3, so the two correspond position by position; there is
such a call for every value 0..99 of the loop variable. -/
theorem main_insert_arity :
    (∀ c ∈ issued (main recording), ∀ (d : String) (t : Int) (ms vs : List String),
      c = .insert d t ms vs →
        ms.length = vs.length ∧ ms.length = 3 ∧ vs.length = 3 ∧ 0 ≤ t ∧ t < 100) ∧
    (∀ t : Int, 0 ≤ t → t < 100 → ∃ (d : String) (ms vs : List String),
      Call.insert d t ms vs ∈ issued (main recording) ∧ ms.length = vs.length) := by
  rw [issued_main_recording]
  constructor
  · intro c hc d t ms vs hcall
    subst hcall
    obtain ⟨i, hi⟩ := List.getElem?_of_mem hc
    obtain ⟨h5, h105, rfl, rfl, rfl, rfl⟩ := mainCalls_insert_at hi
    refine ⟨rfl, rfl, rfl, by omega, by omega⟩
  · intro t h0 h100
    refine ⟨"root.sg1.d1", ["s1", "s2", "s3"], ["1", "2", "3"], ?_, rfl⟩
    rw [mem_mainCalls]
    exact Or.inr (Or.inl (mem_loopCalls.mpr ⟨t, h0, h100, rfl⟩))

/-- C3: for every `insert` call that `main` issues and every measurement `m` of it, the
timeseries `deviceId.m` is one of `root.sg1.d1.s1`, `root.sg1.d1.s2`,
`root.sg1.d1.s3` and was declared by a `createTimeseries` call at an earlier
position of the call sequence. -/
theorem main_insert_after_create :
    (∀ (i : Nat) (d : String) (t : Int) (ms vs : List String),
      (issued (main recording))[i]? = some (.insert d t ms vs) →
      ∀ m ∈ ms, d ++ "." ++ m ∈ seriesPaths ∧
        ∃ (j : Nat) (dt : TSDataType) (enc : TSEncoding) (comp : CompressionType), j < i ∧
          (issued (main recording))[j]? = some (.createTimeseries (d ++ "." ++ m) dt enc comp)) ∧
    (∃ (i : Nat) (d : String) (t : Int) (ms vs : List String),
      (issued (main recording))[i]? = some (.insert d t ms vs) ∧ ms ≠ []) := by
  rw [issued_main_recording]
  constructor
  · intro i d t ms vs hi m hm
    obtain ⟨h5, -, rfl, -, rfl, -⟩ := mainCalls_insert_at hi
    simp only [List.mem_cons, List.mem_singleton, List.not_mem_nil, or_false] at hm
    rcases hm with rfl | rfl | rfl
    · exact ⟨by decide, 2, .INT64, .RLE, .SNAPPY, by omega, by rw [mainCalls_getElem?]; rfl⟩
    · exact ⟨by decide, 3, .INT64, .RLE, .SNAPPY, by omega, by rw [mainCalls_getElem?]; rfl⟩
    · exact ⟨by decide, 4, .INT64, .RLE, .SNAPPY, by omega, by rw [mainCalls_getElem?]; rfl⟩
  · exact ⟨5, "root.sg1.d1", 0, ["s1", "s2", "s3"], ["1", "2", "3"],
      by rw [mainCalls_getElem?]; rfl, by simp⟩

/-- C4: every `createTimeseries` call that `main` issues has one of the three paths, the
path has `root.sg1.` as a proper prefix, and `setStorageGroup("root.sg1")` was
issued at an earlier position; the three calls are at positions 2, 3 and 4. -/
theorem main_create_after_setStorageGroup :
    (∀ (i : Nat) (p : String) (dt : TSDataType) (enc : TSEncoding) (comp : CompressionType),
      (issued (main recording))[i]? = some (.createTimeseries p dt enc comp) →
        p ∈ seriesPaths ∧
        (∃ rest : String, rest ≠ "" ∧ p = "root.sg1" ++ "." ++ rest) ∧
        liesUnder p "root.sg1" = true ∧
        ∃ j : Nat, j < i ∧ (issued (main recording))[j]? = some (.setStorageGroup "root.sg1")) ∧
    (issued (main recording))[2]? = some (.createTimeseries "root.sg1.d1.s1" .INT64 .RLE .SNAPPY) ∧
    (issued (main recording))[3]? = some (.createTimeseries "root.sg1.d1.s2" .INT64 .RLE .SNAPPY) ∧
    (issued (main recording))[4]? = some (.createTimeseries "root.sg1.d1.s3" .INT64 .RLE .SNAPPY) := by
  rw [issued_main_recording]
  refine ⟨?_, by rw [mainCalls_getElem?]; rfl, by rw [mainCalls_getElem?]; rfl,
    by rw [mainCalls_getElem?]; rfl⟩
  intro i p dt enc comp hi
  obtain ⟨h2, h5, hp, -, -, -⟩ := mainCalls_create_at hi
  have hset : mainCalls[1]? = some (.setStorageGroup "root.sg1") := by
    rw [mainCalls_getElem?]; rfl
  have hcases : i = 2 ∨ i = 3 ∨ i = 4 := by omega
  rcases hcases with rfl | rfl | rfl
  · have : p = "root.sg1.d1.s1" := by simpa [seriesPaths] using hp.symm
    subst this
    exact ⟨by decide, ⟨"d1.s1", by decide, by decide⟩, by decide, 1, by omega, hset⟩
  · have : p = "root.sg1.d1.s2" := by simpa [seriesPaths] using hp.symm
    subst this
    exact ⟨by decide, ⟨"d1.s2", by decide, by decide⟩, by decide, 1, by omega, hset⟩
  · have : p = "root.sg1.d1.s3" := by simpa [seriesPaths] using hp.symm
    subst this
    exact ⟨by decide, ⟨"d1.s3", by decide, by decide⟩, by decide, 1, by omega, hset⟩

theorem filter_loopCalls_isInsert : loopCalls.filter Call.isInsert = loopCalls := by
  rw [List.filter_eq_self]
  intro c hc
  obtain ⟨k, _, _, rfl⟩ := mem_loopCalls.mp hc
  rfl

theorem countP_loopCalls_isInsert : loopCalls.countP Call.isInsert = 100 := by
  rw [List.countP_eq_length_filter, filter_loopCalls_isInsert, loopCalls_length]

theorem countP_loopCalls_created :
    loopCalls.countP (fun c => c.createdPath.isSome) = 0 := by
  rw [List.countP_eq_zero]
  intro c hc
  obtain ⟨k, _, _, rfl⟩ := mem_loopCalls.mp hc
  simp [insertCall_eq, Call.createdPath]

theorem filterMap_loopCalls_createdPath : loopCalls.filterMap Call.createdPath = [] := by
  rw [List.filterMap_eq_nil_iff]
  intro c hc
  obtain ⟨k, _, _, rfl⟩ := mem_loopCalls.mp hc
  rfl

/-- C7: every timeseries `main` declares has data type `INT64`, encoding `RLE` and
compression `SNAPPY`; every `insert` call pairs `s1`, `s2`, `s3` with the
strings `"1"`, `"2"`, `"3"`, which are the decimal literals of the integers 1,
2 and 3, each within the signed 64-bit range. -/
theorem main_declares_int64_inserts_literals :
    (∀ c ∈ issued (main recording), ∀ (p : String) (dt : TSDataType) (enc : TSEncoding)
      (comp : CompressionType), c = .createTimeseries p dt enc comp →
        dt = .INT64 ∧ enc = .RLE ∧ comp = .SNAPPY) ∧
    (∀ c ∈ issued (main recording), ∀ (d : String) (t : Int) (ms vs : List String),
      c = .insert d t ms vs →
        ms.zip vs = [("s1", "1"), ("s2", "2"), ("s3", "3")] ∧
        vs = [(1 : Int), 2, 3].map toString ∧
        vs.map parseInt64 = [some 1, some 2, some 3] ∧
        ∀ v ∈ vs, ∃ n : Int, parseInt64 v = some n ∧ -(2 ^ 63) ≤ n ∧ n < 2 ^ 63) ∧
    (issued (main recording)).countP (fun c => c.createdPath.isSome) = 3 ∧
    (issued (main recording)).countP Call.isInsert = 100 := by
  rw [issued_main_recording]
  refine ⟨?_, ?_, ?_, ?_⟩
  · intro c hc p dt enc comp hcall
    subst hcall
    obtain ⟨i, hi⟩ := List.getElem?_of_mem hc
    obtain ⟨-, -, -, h1, h2, h3⟩ := mainCalls_create_at hi
    exact ⟨h1, h2, h3⟩
  · intro c hc d t ms vs hcall
    subst hcall
    obtain ⟨i, hi⟩ := List.getElem?_of_mem hc
    obtain ⟨-, -, -, -, rfl, rfl⟩ := mainCalls_insert_at hi
    refine ⟨rfl, rfl, by decide, ?_⟩
    intro v hv
    simp only [List.mem_cons, List.mem_singleton, List.not_mem_nil, or_false] at hv
    rcases hv with rfl | rfl | rfl
    · exact ⟨1, by decide, by norm_num, by norm_num⟩
    · exact ⟨2, by decide, by norm_num, by norm_num⟩
    · exact ⟨3, by decide, by norm_num, by norm_num⟩
  · rw [mainCalls, List.countP_append, List.countP_append, countP_loopCalls_created]
    rfl
  · rw [mainCalls, List.countP_append, List.countP_append, countP_loopCalls_isInsert]
    rfl

/-! ### The loop -/

theorem loopCalls_eq_map_range :
    loopCalls = (List.range 100).map
      (fun k : Nat => Call.insert "root.sg1.d1" (k : Int) ["s1", "s2", "s3"] ["1", "2", "3"]) := by
  rw [loopCalls, loopTimes_eq_map, List.map_map]
  apply List.map_congr_left
  intro k _
  simp [insertCall_eq]

theorem filter_mainCalls_isInsert : mainCalls.filter Call.isInsert = loopCalls := by
  rw [mainCalls, List.filter_append, List.filter_append, filter_loopCalls_isInsert]
  have h1 : setupCalls.filter Call.isInsert = [] := rfl
  have h2 : [Call.deletedata seriesPaths 99, Call.close].filter Call.isInsert = [] := rfl
  rw [h1, h2, List.nil_append, List.append_nil]

/-- C9: the insert loop terminates after issuing exactly 100 `insert` calls; the `k`-th
one (k = 0..99) has timestamp `k`, device `root.sg1.d1`, measurements
`s1, s2, s3` and values `"1", "2", "3"`; the timestamps are strictly increasing,
hence pairwise distinct. -/
theorem insert_loop_hundred_calls :
    (∀ trace : List Call,
      insertLoop recording "root.sg1.d1" ["s1", "s2", "s3"] 0 trace =
        .ok (trace ++ (List.range 100).map (fun k : Nat =>
          Call.insert "root.sg1.d1" (k : Int) ["s1", "s2", "s3"] ["1", "2", "3"]))) ∧
    (issued (main recording)).filter Call.isInsert =
      (List.range 100).map (fun k : Nat =>
        Call.insert "root.sg1.d1" (k : Int) ["s1", "s2", "s3"] ["1", "2", "3"]) ∧
    ((issued (main recording)).filter Call.isInsert).length = 100 ∧
    (issued (main recording)).filterMap Call.insertTime =
      (List.range 100).map (fun k : Nat => (k : Int)) ∧
    ((issued (main recording)).filterMap Call.insertTime).Pairwise (fun a b => a < b) ∧
    ((issued (main recording)).filterMap Call.insertTime).Nodup := by
  have htimes : mainCalls.filterMap Call.insertTime =
      (List.range 100).map (fun k : Nat => (k : Int)) := by
    have h : mainCalls.filterMap Call.insertTime =
        (mainCalls.filter Call.isInsert).filterMap Call.insertTime := by
      rw [List.filterMap_filter]
      apply List.filterMap_congr
      intro c _
      cases c <;> simp [Call.isInsert, Call.insertTime, Option.guard]
    rw [h, filter_mainCalls_isInsert, loopCalls_eq_map_range, List.filterMap_map]
    rw [← List.filterMap_eq_map]
    rfl
  have hpair : ((List.range 100).map (fun k : Nat => (k : Int))).Pairwise (fun a b => a < b) := by
    rw [List.pairwise_map]
    exact (List.pairwise_lt_range 100).imp (fun h => by exact_mod_cast h)
  rw [issued_main_recording, filter_mainCalls_isInsert, htimes]
  refine ⟨?_, loopCalls_eq_map_range, loopCalls_length, rfl, hpair, ?_⟩
  · intro trace
    rw [insertLoop_eq_performAll recording _ _ 100 0 trace (by norm_num), ← loopCalls_eq_map_range]
    exact performAll_scripted_ok _ loopCalls trace (fun _ _ => rfl)
  · exact hpair.imp (fun h => ne_of_lt h)

/-- C10: the three paths `main` declares with `createTimeseries` are pairwise distinct;
the path list of the `deletedata` call is that list of declared paths, in the
same order; `deletedata` is issued once, at a position after every `insert`. -/
theorem main_delete_paths_are_created_paths :
    ((issued (main recording)).filterMap Call.createdPath).length = 3 ∧
    ((issued (main recording)).filterMap Call.createdPath).Nodup ∧
    (issued (main recording))[105]? =
      some (.deletedata ((issued (main recording)).filterMap Call.createdPath) 99) ∧
    (∀ (j : Nat) (c : Call), (issued (main recording))[j]? = some c → c.isInsert = true →
      j < 105) ∧
    (∀ (j : Nat) (ps : List String) (t : Int),
      (issued (main recording))[j]? = some (.deletedata ps t) → j = 105) ∧
    (issued (main recording)).countP Call.isInsert = 100 := by
  have hcreated : mainCalls.filterMap Call.createdPath = seriesPaths := by
    rw [mainCalls, List.filterMap_append, List.filterMap_append, filterMap_loopCalls_createdPath]
    rfl
  rw [issued_main_recording, hcreated]
  refine ⟨rfl, by decide, by rw [mainCalls_getElem?]; rfl, ?_, ?_, ?_⟩
  · intro j c hj hc
    cases c with
    | insert d t ms vs => exact (mainCalls_insert_at hj).2.1
    | _ => simp [Call.isInsert] at hc
  · intro j ps t hj
    rw [mainCalls_getElem?] at hj
    by_cases h1 : j < 5
    · exfalso
      simp only [h1, if_true] at hj
      interval_cases j <;> simp [setupCalls] at hj
    · simp only [h1, if_false, insertCall_eq] at hj
      split_ifs at hj with h2 h3 h4
      · simp at hj
      · exact h3
      · simp at hj
  · rw [mainCalls, List.countP_append, List.countP_append, countP_loopCalls_isInsert]
    rfl

/-! ### A call that throws -/

theorem close_not_mem_take {k : Nat} (hk : k ≤ 106) : Call.close ∉ mainCalls.take k := by
  intro hmem
  obtain ⟨i, hi⟩ := List.getElem?_of_mem hmem
  rw [List.getElem?_take] at hi
  split_ifs at hi with hlt
  rw [mainCalls_getElem?] at hi
  by_cases h1 : i < 5
  · simp only [h1, if_true] at hi
    interval_cases i <;> simp [setupCalls] at hi
  · simp only [h1, if_false, insertCall_eq] at hi
    split_ifs at hi with h2 h3 h4
    · simp at hi
    · simp at hi
    · omega

theorem close_mem_mainCalls : Call.close ∈ mainCalls := by
  rw [mem_mainCalls]; exact Or.inr (Or.inr (Or.inr rfl))

/-- The run of `main` on a scripted session in which call number `k` is the first to
throw. -/
theorem main_scripted_error (fails : Nat → Bool) (k : Nat) (hk : k < 107)
    (hfail : fails k = true) (hfirst : ∀ i, i < k → fails i = false) :
    main (scripted fails) = .error (mainCalls.take (k + 1)) := by
  rw [main_eq_performAll]
  have := performAll_scripted_error fails mainCalls [] k (by rw [mainCalls_length]; exact hk)
    (by simpa using hfail) (by simpa using hfirst)
  simpa using this

/-- The run of `main` on a scripted session in which no call throws. -/
theorem main_scripted_ok (fails : Nat → Bool) (h : ∀ i, i < 107 → fails i = false) :
    main (scripted fails) = .ok mainCalls := by
  rw [main_eq_performAll]
  have := performAll_scripted_ok fails mainCalls []
    (by intro i hi; rw [mainCalls_length] at hi; simpa using h i hi)
  simpa using this

/-- C6: `main` handles no failure.  On a session whose calls may throw, if call number
`k` of `main` (counted from 0; `open()` is number 0, `deletedata` number 105) is
the first to throw, `main` ends with that failure having issued exactly the
first `k + 1` calls of its sequence, and `close()` is not among them; `close()`
is issued if and only if each of the 106 calls before it succeeded. -/
theorem main_stops_at_first_failure (fails : Nat → Bool) :
    (∀ k : Nat, k < 106 → fails k = true → (∀ i, i < k → fails i = false) →
      main (scripted fails) = .error (mainCalls.take (k + 1)) ∧
      issued (main (scripted fails)) = (issued (main recording)).take (k + 1) ∧
      (issued (main (scripted fails))).length = k + 1 ∧
      Call.close ∉ issued (main (scripted fails))) ∧
    (Call.close ∈ issued (main (scripted fails)) ↔ ∀ i, i < 106 → fails i = false) := by
  have hstop : ∀ k : Nat, k < 106 → fails k = true → (∀ i, i < k → fails i = false) →
      main (scripted fails) = .error (mainCalls.take (k + 1)) ∧
      issued (main (scripted fails)) = (issued (main recording)).take (k + 1) ∧
      (issued (main (scripted fails))).length = k + 1 ∧
      Call.close ∉ issued (main (scripted fails)) := by
    intro k hk hfail hfirst
    have hrun := main_scripted_error fails k (by omega) hfail hfirst
    refine ⟨hrun, ?_, ?_, ?_⟩
    · rw [hrun, issued_main_recording]; rfl
    · rw [hrun]
      simp only [issued, List.length_take, mainCalls_length]
      omega
    · rw [hrun]
      exact close_not_mem_take (by omega)
  refine ⟨hstop, ?_⟩
  constructor
  · intro hmem
    by_contra hex
    push_neg at hex
    obtain ⟨i, hi, hfi⟩ := hex
    have hfi : fails i = true := by simpa using hfi
    have hex : ∃ i, i < 106 ∧ fails i = true := ⟨i, hi, hfi⟩
    obtain ⟨hk, hfk⟩ := Nat.find_spec hex
    have hmin : ∀ j, j < Nat.find hex → fails j = false := by
      intro j hj
      have := Nat.find_min hex hj
      by_contra hne
      apply this
      exact ⟨by omega, by simpa using hne⟩
    exact (hstop _ hk hfk hmin).2.2.2 hmem
  · intro hall
    by_cases h106 : fails 106 = true
    · rw [main_scripted_error fails 106 (by omega) h106 hall]
      have : mainCalls.take (106 + 1) = mainCalls := by
        apply List.take_of_length_le
        rw [mainCalls_length]
      rw [this]
      exact close_mem_mainCalls
    · rw [main_scripted_ok fails]
      · exact close_mem_mainCalls
      · intro i hi
        by_cases h : i < 106
        · exact hall i h
        · have : i = 106 := by omega
          subst this
          simpa using h106

/-- C6 at a concrete script: when the second `createTimeseries` call (call number 3)
throws, `main` ends after four calls and never closes the session. -/
theorem main_stops_at_first_failure_witness :
    main (scripted (fun k => k == 3)) =
      .error [ .open, .setStorageGroup "root.sg1",
        .createTimeseries "root.sg1.d1.s1" .INT64 .RLE .SNAPPY,
        .createTimeseries "root.sg1.d1.s2" .INT64 .RLE .SNAPPY ] ∧
    Call.close ∉ issued (main (scripted (fun k => k == 3))) := by
  have h := (main_stops_at_first_failure (fun k => k == 3)).1 3 (by decide) (by decide)
    (by decide)
  refine ⟨?_, h.2.2.2⟩
  rw [h.1]
  rfl

/-! ### The example against the session contract -/

theorem series_lookup (db : Database) (hts : db.timeseries = declaredSeries) :
    db.series "root.sg1.d1.s1" = some ⟨"root.sg1.d1.s1", .INT64, .RLE, .SNAPPY⟩ ∧
    db.series "root.sg1.d1.s2" = some ⟨"root.sg1.d1.s2", .INT64, .RLE, .SNAPPY⟩ ∧
    db.series "root.sg1.d1.s3" = some ⟨"root.sg1.d1.s3", .INT64, .RLE, .SNAPPY⟩ := by
  simp only [Database.series, hts, declaredSeries]
  refine ⟨by decide, by decide, by decide⟩

/-- The points of the row that the loop iteration with loop variable `time` writes. -/
theorem rowPoints_example (server : Server) (db : Database) (time : Int)
    (hts : db.timeseries = declaredSeries) :
    rowPoints server db "root.sg1.d1" time ["s1", "s2", "s3"] ["1", "2", "3"] =
      .ok (rowsOf [time]) := by
  obtain ⟨h1, h2, h3⟩ := series_lookup db hts
  have e1 : "root.sg1.d1" ++ "." ++ "s1" = "root.sg1.d1.s1" := by decide
  have e2 : "root.sg1.d1" ++ "." ++ "s2" = "root.sg1.d1.s2" := by decide
  have e3 : "root.sg1.d1" ++ "." ++ "s3" = "root.sg1.d1.s3" := by decide
  have p1 : parseInt64 "1" = some 1 := by decide
  have p2 : parseInt64 "2" = some 2 := by decide
  have p3 : parseInt64 "3" = some 3 := by decide
  simp only [rowPoints, e1, e2, e3, h1, h2, h3, Server.coerce, p1, p2, p3, Option.map_some']
  rfl

theorem rowsOf_cons (t : Int) (ts : List Int) : rowsOf (t :: ts) = rowsOf [t] ++ rowsOf ts := by
  simp [rowsOf]

/-- In an open session in which the three series are declared, the `insert` calls of
the loop all succeed and append their rows. -/
theorem performAll_inserts (server : Server) (db0 : Database) (times : List Int) :
    ∀ st : SessionState, st.phase = .opened → st.db.timeseries = declaredSeries →
      (specSession server db0).performAll (times.map insertCall) st =
        .ok { st with db := { st.db with points := st.db.points ++ rowsOf times } } := by
  induction times with
  | nil =>
    intro st _ _
    simp [Session.performAll, rowsOf, pure, Except.pure]
  | cons t ts ih =>
    intro st hph hts
    have hrow := rowPoints_example server st.db t hts
    have hstep : (specSession server db0).perform (insertCall t) st =
        .ok { st with db := { st.db with points := st.db.points ++ rowsOf [t] } } := by
      simp only [insertCall_eq, Session.perform, specSession, specInsert, whenOpen, hph, hrow,
        if_true]
    simp only [List.map_cons, Session.performAll, hstep, bind, Except.bind]
    have key := ih ⟨st.host, st.port, st.username, st.password, st.phase,
      ⟨st.db.storageGroups, st.db.timeseries, st.db.points ++ rowsOf [t]⟩⟩ hph hts
    rw [key, rowsOf_cons t ts]
    simp only [List.append_assoc]

/-- The set-up calls succeed on a fresh server that accepts the endpoint, the
credentials and the storage group path. -/
theorem performAll_setup (server : Server) (host : String) (port : Int) (user pw : String)
    (h1 : server.reachable host port = true) (h2 : server.authenticates user pw = true)
    (h3 : server.wellFormed "root.sg1" = true) :
    (specSession server Database.empty).performAll setupCalls
        ((specSession server Database.empty).new host port user pw) =
      .ok ⟨host, port, user, pw, .opened, ⟨["root.sg1"], declaredSeries, []⟩⟩ := by
  have l1 : liesUnder "root.sg1.d1.s1" "root.sg1" = true := by decide
  have l2 : liesUnder "root.sg1.d1.s2" "root.sg1" = true := by decide
  have l3 : liesUnder "root.sg1.d1.s3" "root.sg1" = true := by decide
  have f1 : List.find? (fun ts : Timeseries => ts.path == "root.sg1.d1.s1") [] = none := rfl
  have f2 : List.find? (fun ts : Timeseries => ts.path == "root.sg1.d1.s2")
      [⟨"root.sg1.d1.s1", .INT64, .RLE, .SNAPPY⟩] = none := by decide
  have f3 : List.find? (fun ts : Timeseries => ts.path == "root.sg1.d1.s3")
      [⟨"root.sg1.d1.s1", .INT64, .RLE, .SNAPPY⟩, ⟨"root.sg1.d1.s2", .INT64, .RLE, .SNAPPY⟩]
      = none := by decide
  simp [setupCalls, Session.performAll, Session.perform, specSession, specOpen,
    specSetStorageGroup, specCreateTimeseries, whenOpen, Database.empty, Database.series,
    h1, h2, h3, l1, l2, l3, f1, f2, f3, bind, Except.bind, pure, Except.pure, declaredSeries]

theorem ok_bind {ε α β : Type} (a : α) (f : α → Except ε β) :
    ((Except.ok a : Except ε α) >>= f) = f a := rfl

theorem mem_rowsOf {pt : Point} {times : List Int} (h : pt ∈ rowsOf times) :
    pt.time ∈ times ∧ pt.path ∈ seriesPaths := by
  simp only [rowsOf, List.mem_flatMap, List.mem_cons, List.mem_singleton, List.not_mem_nil,
    or_false] at h
  obtain ⟨t, ht, rfl | rfl | rfl⟩ := h <;> exact ⟨ht, by simp [seriesPaths]⟩

theorem rowsOf_length (times : List Int) : (rowsOf times).length = 3 * times.length := by
  induction times with
  | nil => rfl
  | cons t ts ih =>
    rw [rowsOf_cons, List.length_append, ih, List.length_cons]
    have : (rowsOf [t]).length = 3 := rfl
    omega

/-- If a list of calls succeeds, so does every initial segment of it. -/
theorem performAll_take_ok {σ ε : Type} (S : Session σ ε) (cs : List Call) :
    ∀ (s st : σ), S.performAll cs s = .ok st →
      ∀ n : Nat, ∃ st1 : σ, S.performAll (cs.take n) s = .ok st1 := by
  induction cs with
  | nil => intro s st _ n; exact ⟨s, by simp [Session.performAll, pure, Except.pure]⟩
  | cons c cs ih =>
    intro s st h n
    cases n with
    | zero => exact ⟨s, by simp [Session.performAll, pure, Except.pure]⟩
    | succ n =>
      simp only [Session.performAll, List.take_succ_cons] at h ⊢
      cases hc : S.perform c s with
      | error e => rw [hc] at h; simp [bind, Except.bind] at h
      | ok s1 =>
        rw [hc] at h
        exact ih s1 st h n

/-- C5: under the session contract of the specification, on a fresh server that accepts
the endpoint, the credentials and the storage group path, lines 6–30 of `main`
succeed; right before `deletedata(del, 99)` the database holds the 300 points
written by the loop, each with a timestamp at most 99 and on one of the three
deleted paths; right after it the database holds no point at all, so none on
`root.sg1.d1.s1`, `root.sg1.d1.s2` or `root.sg1.d1.s3`. -/
theorem main_delete_leaves_no_point (server : Server)
    (h1 : server.reachable "127.0.0.1" 6667 = true)
    (h2 : server.authenticates "root" "root" = true)
    (h3 : server.wellFormed "root.sg1" = true) :
    ∃ before after : SessionState,
      (specSession server Database.empty).performAll (setupCalls ++ loopCalls)
        ((specSession server Database.empty).new "127.0.0.1" 6667 "root" "root") = .ok before ∧
      before.db.points.length = 300 ∧
      (∀ pt ∈ before.db.points, pt.time ≤ 99 ∧ pt.path ∈ seriesPaths) ∧
      (specSession server Database.empty).deletedata seriesPaths 99 before = .ok after ∧
      mainThroughDelete (specSession server Database.empty) = .ok after ∧
      (∀ pt ∈ after.db.points, pt.path ∉ seriesPaths) ∧
      after.db.points = [] := by
  have hsetup := performAll_setup server "127.0.0.1" 6667 "root" "root" h1 h2 h3
  have hloop := performAll_inserts server Database.empty (loopTimes 0 100)
    ⟨"127.0.0.1", 6667, "root", "root", .opened, ⟨["root.sg1"], declaredSeries, []⟩⟩ rfl rfl
  have hbefore : (specSession server Database.empty).performAll (setupCalls ++ loopCalls)
      ((specSession server Database.empty).new "127.0.0.1" 6667 "root" "root") =
      .ok ⟨"127.0.0.1", 6667, "root", "root", .opened,
        ⟨["root.sg1"], declaredSeries, rowsOf (loopTimes 0 100)⟩⟩ := by
    rw [performAll_append, hsetup]
    rw [ok_bind, loopCalls, hloop]
    simp only [List.nil_append]
  have hpts : ∀ pt ∈ rowsOf (loopTimes 0 100), pt.time ≤ 99 ∧ pt.path ∈ seriesPaths := by
    intro pt hpt
    obtain ⟨ht, hp⟩ := mem_rowsOf hpt
    rw [mem_loopTimes] at ht
    exact ⟨by omega, hp⟩
  have hfilter : (rowsOf (loopTimes 0 100)).filter
      (fun pt => !(decide (pt.path ∈ seriesPaths) && decide (pt.time ≤ 99))) = [] := by
    rw [List.filter_eq_nil_iff]
    intro pt hpt
    obtain ⟨ht, hp⟩ := hpts pt hpt
    simp [ht, hp]
  have hall : seriesPaths.all (fun p =>
      (Database.series ⟨["root.sg1"], declaredSeries, rowsOf (loopTimes 0 100)⟩ p).isSome)
      = true := by
    obtain ⟨s1, s2, s3⟩ := series_lookup
      ⟨["root.sg1"], declaredSeries, rowsOf (loopTimes 0 100)⟩ rfl
    simp [seriesPaths, s1, s2, s3]
  have hdelete : (specSession server Database.empty).deletedata seriesPaths 99
      ⟨"127.0.0.1", 6667, "root", "root", .opened,
        ⟨["root.sg1"], declaredSeries, rowsOf (loopTimes 0 100)⟩⟩ =
      .ok ⟨"127.0.0.1", 6667, "root", "root", .opened, ⟨["root.sg1"], declaredSeries, []⟩⟩ := by
    simp only [specSession, specDeletedata, whenOpen, hall, hfilter, if_true]
  refine ⟨_, _, hbefore, ?_, hpts, hdelete, ?_, ?_, rfl⟩
  · show (rowsOf (loopTimes 0 100)).length = 300
    rw [rowsOf_length, loopTimes_length]
  · rw [mainThroughDelete_eq_performAll, performAll_append, hbefore]
    exact hdelete
  · intro pt hpt
    simp at hpt

/-- C5 at a concrete server, one that accepts everything. -/
theorem main_delete_leaves_no_point_witness :
    ∃ before after : SessionState,
      (specSession permissiveServer Database.empty).performAll (setupCalls ++ loopCalls)
        ((specSession permissiveServer Database.empty).new "127.0.0.1" 6667 "root" "root") =
          .ok before ∧
      before.db.points.length = 300 ∧
      (∀ pt ∈ before.db.points, pt.time ≤ 99 ∧ pt.path ∈ seriesPaths) ∧
      (specSession permissiveServer Database.empty).deletedata seriesPaths 99 before = .ok after ∧
      mainThroughDelete (specSession permissiveServer Database.empty) = .ok after ∧
      (∀ pt ∈ after.db.points, pt.path ∉ seriesPaths) ∧
      after.db.points = [] :=
  main_delete_leaves_no_point permissiveServer rfl rfl rfl

/-- The scenario of the specification succeeds on a fresh server that accepts the
endpoint, the credentials and the storage group path. -/
theorem performAll_scenario (server : Server) (host : String) (port : Int) (user pw : String)
    (h1 : server.reachable host port = true) (h2 : server.authenticates user pw = true)
    (h3 : server.wellFormed "root.sg1" = true) :
    (specSession server Database.empty).performAll scenarioCalls
        ((specSession server Database.empty).new host port user pw) =
      .ok ⟨host, port, user, pw, .closed,
        ⟨["root.sg1"], [⟨"root.sg1.d1.s1", .INT64, .RLE, .SNAPPY⟩],
          [⟨"root.sg1.d1.s1", 0, .int64 1⟩]⟩⟩ := by
  have l1 : liesUnder "root.sg1.d1.s1" "root.sg1" = true := by decide
  have e1 : "root.sg1.d1" ++ "." ++ "s1" = "root.sg1.d1.s1" := by decide
  have p1 : parseInt64 "1" = some 1 := by decide
  have f1 : List.find? (fun ts : Timeseries => ts.path == "root.sg1.d1.s1") [] = none := rfl
  have f2 : List.find? (fun ts : Timeseries => ts.path == "root.sg1.d1.s1")
      [⟨"root.sg1.d1.s1", .INT64, .RLE, .SNAPPY⟩] =
        some ⟨"root.sg1.d1.s1", .INT64, .RLE, .SNAPPY⟩ := by decide
  simp [scenarioCalls, Session.performAll, Session.perform, specSession, specOpen,
    specSetStorageGroup, specCreateTimeseries, specInsert, specClose, rowPoints, Server.coerce,
    whenOpen, Database.empty, Database.series, h1, h2, h3, l1, e1, p1, f1, f2, bind, Except.bind,
    pure, Except.pure]

/-- C8: under the session contract of the specification, on a fresh server that accepts
the endpoint, the credentials and the storage group path, the scenario
open → setStorageGroup("root.sg1") → createTimeseries("root.sg1.d1.s1", INT64,
RLE, SNAPPY) → insert("root.sg1.d1", 0, ["s1"], ["1"]) → close succeeds at every
step and ends with the session closed and exactly one point persisted: value 1
at timestamp 0 on `root.sg1.d1.s1`.  The call sequence of `main` has the
scenario's `open`, `setStorageGroup` and first `createTimeseries` at positions
0, 1, 2 and, at position 5, its first `insert`, for the same device and
timestamp, whose first measurement is `s1` with value `"1"`. -/
theorem scenario_persists_one_row (server : Server) (host : String) (port : Int)
    (user pw : String) (h1 : server.reachable host port = true)
    (h2 : server.authenticates user pw = true) (h3 : server.wellFormed "root.sg1" = true) :
    (∀ n : Nat, ∃ st : SessionState,
      (specSession server Database.empty).performAll (scenarioCalls.take n)
        ((specSession server Database.empty).new host port user pw) = .ok st) ∧
    (∃ st : SessionState,
      (specSession server Database.empty).performAll scenarioCalls
        ((specSession server Database.empty).new host port user pw) = .ok st ∧
      st.phase = .closed ∧
      st.db.points = [⟨"root.sg1.d1.s1", 0, .int64 1⟩]) ∧
    (issued (main recording))[0]? = scenarioCalls[0]? ∧
    (issued (main recording))[1]? = scenarioCalls[1]? ∧
    (issued (main recording))[2]? = scenarioCalls[2]? ∧
    (∃ (ms vs : List String),
      (issued (main recording))[5]? = some (.insert "root.sg1.d1" 0 ms vs) ∧
      (issued (main recording)).findIdx? Call.isInsert = some 5 ∧
      ms[0]? = some "s1" ∧ vs[0]? = some "1" ∧
      scenarioCalls[3]? = some (.insert "root.sg1.d1" 0 ["s1"] ["1"])) := by
  have hrun := performAll_scenario server host port user pw h1 h2 h3
  refine ⟨performAll_take_ok _ _ _ _ hrun, ⟨_, hrun, rfl, rfl⟩, ?_, ?_, ?_, ?_⟩
  · rw [issued_main_recording, mainCalls_getElem?]; rfl
  · rw [issued_main_recording, mainCalls_getElem?]; rfl
  · rw [issued_main_recording, mainCalls_getElem?]; rfl
  · refine ⟨["s1", "s2", "s3"], ["1", "2", "3"], ?_, ?_, rfl, rfl, rfl⟩
    · rw [issued_main_recording, mainCalls_getElem?]; rfl
    · rw [issued_main_recording, mainCalls, List.append_assoc]
      rfl

/-- C8 at a concrete server, one that accepts everything, and the endpoint of the
example. -/
theorem scenario_persists_one_row_witness :
    ∃ st : SessionState,
      (specSession permissiveServer Database.empty).performAll scenarioCalls
        ((specSession permissiveServer Database.empty).new "127.0.0.1" 6667 "root" "root") =
          .ok st ∧
      st.phase = .closed ∧
      st.db.points = [⟨"root.sg1.d1.s1", 0, .int64 1⟩] :=
  (scenario_persists_one_row permissiveServer "127.0.0.1" 6667 "root" "root" rfl rfl rfl).2.1

end SessionExample
